import Mathlib

/-!
# Verification of the `pathlib` Go package

Shallow embedding of `src/pkg/pathlib/pathlib.go` (package `pathlib`), a
small path-manipulation library over the host filesystem. The host is a
Unix-like platform, so `filepath.Separator` is `'/'`.

Strings are treated through their `List Char` model. Go standard-library
path functions used by the package (`path/filepath.Clean`, `Join`, `Dir`,
`Base`, `Match`) are modelled here, on `List Char`, following their
documented lexical semantics for a `'/'` separator. Filesystem-touching
calls (`os.Stat`, `os.MkdirAll`, `os.Create`, `os.ReadFile`,
`os.RemoveAll`, `filepath.Walk`) are modelled over an explicit filesystem
state defined below.
-/

/-- The host path separator (`filepath.Separator` on Unix). -/
def pathSep : Char := '/'

/-- Split a character list at every `'/'`, keeping empty segments
(the segment structure underlying `filepath.Clean`). -/
def splitSegs : List Char → List (List Char)
  | [] => [[]]
  | c :: cs =>
    match splitSegs cs with
    | s :: ss => if c = '/' then [] :: s :: ss else (c :: s) :: ss
    | [] => [[c]]

/-- Join segments back with `'/'` between them. -/
def joinSegs : List (List Char) → List Char
  | [] => []
  | [s] => s
  | s :: ss => s ++ '/' :: joinSegs ss

/-- The `".."` segment. -/
def dotdot : List Char := ['.', '.']

/-- The nonempty segments of a character list. -/
def segsOf (cs : List Char) : List (List Char) :=
  (splitSegs cs).filter (fun s => !s.isEmpty)

/-- The segment-stack processing of `filepath.Clean`: drop `"."` segments,
let `".."` cancel a preceding non-`".."` segment, drop `".."` at the start
of a rooted path, and keep leading `".."`s of a relative path. The
accumulator holds the output segments in reverse order. -/
def procSegs (rooted : Bool) : List (List Char) → List (List Char) → List (List Char)
  | acc, [] => acc.reverse
  | acc, s :: rest =>
    if s = ['.'] then procSegs rooted acc rest
    else if s = dotdot then
      match acc with
      | [] => if rooted then procSegs rooted [] rest else procSegs rooted [dotdot] rest
      | t :: acc' =>
        if t = dotdot then procSegs rooted (dotdot :: t :: acc') rest
        else procSegs rooted acc' rest
    else procSegs rooted (s :: acc) rest

/-- Whether a path (as characters) is rooted, i.e. begins with `'/'`. -/
def isRooted (cs : List Char) : Bool := decide (cs.head? = some '/')

/-- Render processed segments back into a path: a rooted path gets a
leading `'/'`; an empty relative result renders as `"."`. -/
def renderPath (rooted : Bool) (segs : List (List Char)) : List Char :=
  if rooted then '/' :: joinSegs segs
  else if segs.isEmpty then ['.']
  else joinSegs segs

/-- Model of `path/filepath.Clean` (Unix separator) on character lists. -/
def cleanChars (cs : List Char) : List Char :=
  renderPath (isRooted cs) (procSegs (isRooted cs) [] (segsOf cs))

namespace filepath

/-- Model of `path/filepath.Clean`. -/
def Clean (s : String) : String := String.mk (cleanChars s.data)

end filepath

example : filepath.Clean "" = "." := by decide
example : filepath.Clean "/" = "/" := by decide
example : filepath.Clean "a/b/../c" = "a/c" := by decide
example : filepath.Clean "./dir/" = "dir" := by decide
example : filepath.Clean "//a//b/./c/.." = "/a/b" := by decide
example : filepath.Clean "../../x" = "../../x" := by decide
example : filepath.Clean "/.." = "/" := by decide
example : filepath.Clean "a/../.." = ".." := by decide

namespace filepath

/-- Model of the two-argument form of `path/filepath.Join`: Go joins the
elements starting at the first nonempty one with `"/"` and cleans the
result, returning `""` when every element is empty. -/
def Join (a b : String) : String :=
  if a = "" then (if b = "" then "" else Clean b) else Clean (a ++ "/" ++ b)

/-- Model of `path/filepath.Dir` (Unix): everything up to and including
the final `'/'` (empty when there is none), cleaned. -/
def Dir (s : String) : String :=
  String.mk (cleanChars ((s.data.reverse.dropWhile (fun c => c ≠ '/')).reverse))

/-- Model of `path/filepath.Base` (Unix): `"."` for the empty path,
`"/"` for an all-separator path, otherwise the last element after
trailing separators are removed. -/
def Base (s : String) : String :=
  if s.data.isEmpty then "."
  else
    let stripped := (s.data.reverse.dropWhile (fun c => c = '/')).reverse
    if stripped.isEmpty then "/"
    else String.mk (stripped.reverse.takeWhile (fun c => c ≠ '/')).reverse

end filepath

example : filepath.Join "a" "b/c" = "a/b/c" := by decide
example : filepath.Join "." "dir/" = "dir" := by decide
example : filepath.Join "" "" = "" := by decide
example : filepath.Dir "a/b" = "a" := by decide
example : filepath.Dir "a" = "." := by decide
example : filepath.Dir "/a" = "/" := by decide
example : filepath.Base "a/b.txt" = "b.txt" := by decide
example : filepath.Base "/" = "/" := by decide

namespace pathlib

/-- The sole entity of the package: a value wrapping a path string
(`type Path struct { path string }`). -/
structure Path where
  path : String
deriving DecidableEq, Repr

/-- `NewPath` creates a new `Path` with the cleaned directory string. -/
def NewPath (p : String) : Path := ⟨filepath.Clean p⟩

/-- `GetBaseDir` returns the current working directory as the base
directory; `os.Getwd` is modelled as an optional ambient string, and a
failure falls back to `NewPath "."`. -/
def GetBaseDir (cwd : Option String) : Path :=
  match cwd with
  | some dir => NewPath dir
  | none => NewPath "."

/-- `Name` returns the base name of the path (`filepath.Base`). -/
def Path.Name (p : Path) : String := filepath.Base p.path

/-- `String` returns the string representation of the `Path`
(the method is called `toString` here because `String` already names the
string type). -/
def Path.toString (p : Path) : String := p.path

/-- `IsAbsolute` checks if the path is absolute (`filepath.IsAbs`, which
on Unix tests for a leading separator). -/
def Path.IsAbsolute (p : Path) : Bool := isRooted p.path.data

/-- `Join` joins the current path with another path segment. -/
def Path.Join (p : Path) (other : String) : Path :=
  ⟨filepath.Join p.path other⟩

/-- `Parent` returns the immediate parent directory of the current path. -/
def Path.Parent (p : Path) : Path :=
  ⟨filepath.Dir p.path⟩

/-- The collection loop of `Parents`: walk `Parent` up to `n` more times,
stopping (without appending) as soon as the parent is `"."` or `"/"`,
appending each parent reached before that. -/
def parentsLoop : Nat → Path → List Path → List Path
  | 0, _, acc => acc
  | n + 1, cur, acc =>
    let c := cur.Parent
    if c.path = "." ∨ c.path = "/" then acc
    else parentsLoop n c (acc ++ [c])

/-- `Parents` returns the parent directories up to the specified depth:
it collects `depth + 1` parents (stopping early at the `"."`/`"/"`
boundary) and evaluates `parents[len(parents)-1]`. The Go indexing
panics when the collected slice is empty; that fault is modelled by
`none` (`List.getLast?` of the empty list). -/
def Path.Parents (p : Path) (depth : Nat) : Option Path :=
  (parentsLoop (depth + 1) p []).getLast?

end pathlib

/-- A filesystem entry: a regular file with its byte content, or a
directory. -/
inductive FsEntry where
  | file (content : List Nat)
  | dir
deriving DecidableEq, Repr

/-- The host filesystem state: a finite map from path strings to entries
(later bindings shadow earlier ones), together with the sets of paths at
which each OS call fails with a permission or device error. The failure
sets let theorems quantify over failing filesystem states. -/
structure FS where
  entries : List (String × FsEntry)
  statFail : List String
  mkdirFail : List String
  createFail : List String
  readFail : List String
  removeFail : List String
deriving DecidableEq, Repr

/-- The entry currently bound at a path. -/
def entryAt (fs : FS) (key : String) : Option FsEntry :=
  (fs.entries.find? (fun e => e.1 == key)).map (fun e => e.2)

/-- The result of `os.Stat`: an error can be `IsNotExist` or some other
failure (e.g. permission denied). -/
inductive StatErr where
  | notExist
  | permission
deriving DecidableEq, Repr

/-- Model of `os.Stat`. -/
def statFs (fs : FS) (key : String) : Except StatErr FsEntry :=
  if key ∈ fs.statFail then Except.error StatErr.permission
  else
    match entryAt fs key with
    | some e => Except.ok e
    | none => Except.error StatErr.notExist

/-- Whether `q` lies strictly below the path `parent`. -/
def isUnder (parent q : String) : Bool := (parent ++ "/").isPrefixOf q

/-- Model of `os.MkdirAll`: record the directory entry, or fail.
Ancestor entries are not tracked, since no observation here consults
them. -/
def mkdirAllFs (fs : FS) (key : String) : Except String FS :=
  if key ∈ fs.mkdirFail then Except.error "failed to create directory"
  else Except.ok { fs with entries := (key, FsEntry.dir) :: fs.entries }

/-- Model of `os.Create`: create an empty file, or fail. -/
def createFileFs (fs : FS) (key : String) : Except String FS :=
  if key ∈ fs.createFail then Except.error "failed to create file"
  else Except.ok { fs with entries := (key, FsEntry.file []) :: fs.entries }

/-- Model of `os.ReadFile`: the file's bytes, or an error when the read
fails (injected failure, missing entry, or a directory). -/
def readFileFs (fs : FS) (key : String) : Except String (List Nat) :=
  if key ∈ fs.readFail then Except.error "permission denied"
  else
    match entryAt fs key with
    | some (FsEntry.file content) => Except.ok content
    | some FsEntry.dir => Except.error "is a directory"
    | none => Except.error "no such file or directory"

/-- Model of `os.RemoveAll`: drop the path and everything below it, or
fail. -/
def removeAllFs (fs : FS) (key : String) : Except String FS :=
  if key ∈ fs.removeFail then Except.error "permission denied"
  else
    Except.ok
      { fs with
        entries := fs.entries.filter (fun e => !(e.1 == key || isUnder key e.1)) }

namespace pathlib

/-- `Exists` checks if the path exists on the filesystem
(`_, err := os.Stat(p.path); return err == nil`). -/
def Path.Exists (p : Path) (fs : FS) : Bool :=
  match statFs fs p.path with
  | Except.ok _ => true
  | Except.error _ => false

/-- `Mkdir` creates the directory specified by the `Path`, including any
necessary parents, wrapping a failure of `os.MkdirAll`. -/
def Path.Mkdir (p : Path) (fs : FS) : Except String FS :=
  mkdirAllFs fs p.path

/-- `Touch` creates a file at `filepath.Join(p.String(), pathname)` if it
does not exist: a no-op when the entry exists, a wrapped error when the
stat fails otherwise or the creation fails. -/
def Path.Touch (p : Path) (pathname : String) (fs : FS) : Except String FS :=
  let filename := filepath.Join p.path pathname
  match statFs fs filename with
  | Except.error StatErr.notExist => createFileFs fs filename
  | Except.error StatErr.permission => Except.error "failed to check file status"
  | Except.ok _ => Except.ok fs

/-- `Read` reads the file content: `nil` (here `none`) on any read
failure, the raw bytes otherwise. -/
def Path.Read (p : Path) (fs : FS) : Option (List Nat) :=
  match readFileFs fs p.path with
  | Except.error _ => none
  | Except.ok data => some data

/-- `Delete` removes the path recursively if it exists, returning the
success flag and the resulting filesystem; a removal error is printed and
yields `false`. -/
def Path.Delete (p : Path) (fs : FS) : Bool × FS :=
  if p.Exists fs then
    match removeAllFs fs p.path with
    | Except.error _ => (false, fs)
    | Except.ok fs1 => (true, fs1)
  else (true, fs)

/-- `splitPath` splits a string into a folder and a file: trailing
separators are trimmed, the text after the last remaining separator is
the file (the whole string when there is none), and a string that ended
with a separator has no file portion. -/
def splitPath (path : String) : String × String :=
  let cs := path.data
  let trimmed := (cs.reverse.dropWhile (fun c => c = '/')).reverse
  let hasSlash := trimmed.contains '/'
  let file0 :=
    if hasSlash then (trimmed.reverse.takeWhile (fun c => c ≠ '/')).reverse
    else trimmed
  let folder :=
    if hasSlash then ((trimmed.reverse.dropWhile (fun c => c ≠ '/')).reverse).dropLast
    else []
  let file := if cs.getLast? == some '/' then [] else file0
  (String.mk folder, String.mk file)

/-- `createPath` creates the necessary directories and files for the
path. The Go function returns only the `Path`; the filesystem here is the
threaded world state, and the final component records the error results
of `Mkdir` and `Touch`, which the Go code discards. -/
def createPath (fs : FS) (pathname : String) : Path × FS × List String :=
  let fo := splitPath pathname
  let folder0 := fo.1
  let file := fo.2
  let folder := if file = "" ∨ (folder0 = "" ∧ file = "") then pathname else folder0
  let p := NewPath folder
  let r1 :=
    if folder ≠ "" then
      match p.Mkdir fs with
      | Except.ok fs1 => (fs1, ([] : List String))
      | Except.error e => (fs, [e])
    else (fs, [])
  if file ≠ "" then
    match p.Touch file r1.1 with
    | Except.ok fs2 => (NewPath (p.Join file).path, fs2, r1.2)
    | Except.error e => (NewPath (p.Join file).path, r1.1, r1.2 ++ [e])
  else (p, r1.1, r1.2)

/-- `Create` creates a new path, ensuring the necessary directories and
files exist: `createPath(p.Join(pathname).String())`. -/
def Path.Create (p : Path) (pathname : String) (fs : FS) : Path × FS × List String :=
  createPath fs (p.Join pathname).path

end pathlib

example : pathlib.splitPath "a/b/c" = ("a/b", "c") := by decide
example : pathlib.splitPath "a/b/" = ("a", "") := by decide
example : pathlib.splitPath "file" = ("", "file") := by decide
example : pathlib.splitPath "" = ("", "") := by decide

/-- A filesystem with no entries and no injected failures. -/
def fsEmpty : FS := ⟨[], [], [], [], [], []⟩

example :
    (pathlib.Path.Create (pathlib.NewPath ".") "dir/" fsEmpty).1 = pathlib.NewPath "dir" := by
  decide

example :
    entryAt (pathlib.Path.Create (pathlib.NewPath ".") "dir/" fsEmpty).2.1 "dir"
      = some (FsEntry.file []) := by
  decide

example : pathlib.Path.Parents (pathlib.NewPath "/a/b/c/d") 1 = some (pathlib.NewPath "/a/b") := by decide

/-- Shell-style glob matching of a pattern against a name, covering the
`*`, `?` and literal forms of `path/filepath.Match` (the names matched by
the package are base names, which contain no separator; bracket classes
are not exercised by any observation here). -/
def globMatchAux : Nat → List Char → List Char → Bool
  | 0, _, _ => false
  | fuel + 1, ps, ns =>
    match ps, ns with
    | [], [] => true
    | [], _ :: _ => false
    | '*' :: ps1, ns =>
      globMatchAux fuel ps1 ns ||
        match ns with
        | [] => false
        | _ :: ns1 => globMatchAux fuel ('*' :: ps1) ns1
    | '?' :: ps1, _ :: ns1 => globMatchAux fuel ps1 ns1
    | '?' :: _, [] => false
    | c :: ps1, n :: ns1 => c == n && globMatchAux fuel ps1 ns1
    | _ :: _, [] => false

/-- The fuelled matcher at sufficient fuel: every recursive step of the
matcher consumes at least one character of the pattern or the name. -/
def globMatch (ps ns : List Char) : Bool :=
  globMatchAux (ps.length + ns.length + 1) ps ns

namespace filepath

/-- Model of `path/filepath.Match` on the fragment above. -/
def Match (pattern name : String) : Bool := globMatch pattern.data name.data

end filepath

example : filepath.Match "*.go" "pathlib.go" = true := by decide
example : filepath.Match "*.py" "pathlib.go" = false := by decide
example : filepath.Match "a?c" "abc" = true := by decide

/-- The directory tree rooted at a path, as seen by `filepath.Walk`:
regular files, readable directories with their children in walk order,
and directories whose listing fails (the walk error case). -/
inductive WTree where
  | file (name : String)
  | errDir (name : String)
  | dir (name : String) (children : List WTree)
deriving Repr

/-- The entry name of a tree node. -/
def WTree.name : WTree → String
  | .file n => n
  | .errDir n => n
  | .dir n _ => n

mutual

/-- The walk of `FindOne` over one node: the matched full path strings in
walk order, and whether the walk completed without error. A file is
matched by `filepath.Match(pattern, filepath.Base(path))`; directories
are skipped; a failing directory aborts the walk (the error is only
printed by the Go code). -/
def walkTree (pattern : String) (full : String) : WTree → List String × Bool
  | .file _ => (if filepath.Match pattern (filepath.Base full) then [full] else [], true)
  | .errDir _ => ([], false)
  | .dir _ children => walkForest pattern full children

/-- The walk over the children of a directory, aborting at the first
error but keeping the matches accumulated before it. -/
def walkForest (pattern : String) (full : String) : List WTree → List String × Bool
  | [] => ([], true)
  | c :: cs =>
    let r := walkTree pattern (filepath.Join full c.name) c
    if r.2 then
      let r2 := walkForest pattern full cs
      (r.1 ++ r2.1, r2.2)
    else r

end

namespace pathlib

/-- `FindOne` searches recursively for files matching the pattern and
always returns a list, even if empty: the walk appends `NewPath(path)`
for every match and, on a walk error, prints it and returns the matches
collected so far. `t` is the directory tree currently rooted at
`p.path`. -/
def Path.FindOne (p : Path) (t : WTree) (pattern : String) : List Path :=
  (walkTree pattern p.path t).1.map NewPath

/-- One `dict[pattern] = v` step of a Go map: later bindings shadow
earlier ones under `mapLookup`. -/
def mapSet (m : List (String × List Path)) (k : String) (v : List Path) :
    List (String × List Path) :=
  (k, v) :: m

/-- Go map lookup: the most recent binding of the key. -/
def mapLookup (m : List (String × List Path)) (k : String) : Option (List Path) :=
  (m.find? (fun e => e.1 == k)).map (fun e => e.2)

/-- `Find` searches for files matching each given pattern and returns the
map from pattern to matches. -/
def Path.Find (p : Path) (t : WTree) (patterns : List String) :
    List (String × List Path) :=
  patterns.foldl (fun dict pattern => mapSet dict pattern (p.FindOne t pattern)) []

end pathlib

/-- A sample tree with two `.go` files. -/
def sampleTree : WTree :=
  WTree.dir "pkg"
    [WTree.dir "pathlib" [WTree.file "pathlib.go", WTree.file "pathlib_test.go"],
     WTree.file "notes.txt"]

example :
    pathlib.mapLookup
        (pathlib.Path.Find (pathlib.NewPath "pkg") sampleTree ["*.go", "*.py"]) "*.go"
      = some [pathlib.NewPath "pkg/pathlib/pathlib.go",
              pathlib.NewPath "pkg/pathlib/pathlib_test.go"] := by
  decide

example :
    pathlib.mapLookup
        (pathlib.Path.Find (pathlib.NewPath "pkg") sampleTree ["*.go", "*.py"]) "*.py"
      = some [] := by
  decide

/-! ## Normalization: `cleanChars` is idempotent -/

theorem splitSegs_ne_nil (cs : List Char) : splitSegs cs ≠ [] := by
  cases cs with
  | nil => simp [splitSegs]
  | cons c cs =>
    unfold splitSegs
    split
    · split <;> simp
    · simp

theorem splitSegs_cons_slash (cs : List Char) :
    splitSegs ('/' :: cs) = [] :: splitSegs cs := by
  cases h : splitSegs cs with
  | nil => exact absurd h (splitSegs_ne_nil cs)
  | cons s ss => simp [splitSegs, h]

theorem splitSegs_cons_ne (c : Char) (cs : List Char) (hc : c ≠ '/') :
    splitSegs (c :: cs)
      = (c :: (splitSegs cs).headD []) :: (splitSegs cs).tail := by
  cases h : splitSegs cs with
  | nil => exact absurd h (splitSegs_ne_nil cs)
  | cons s ss => simp [splitSegs, h, hc]

theorem noSlash_splitSegs (cs : List Char) : ∀ s ∈ splitSegs cs, '/' ∉ s := by
  induction cs with
  | nil => simp [splitSegs]
  | cons c cs ih =>
    by_cases hc : c = '/'
    · subst hc
      rw [splitSegs_cons_slash]
      intro s hs
      rcases List.mem_cons.mp hs with hs | hs
      · simp [hs]
      · exact ih s hs
    · rw [splitSegs_cons_ne c cs hc]
      intro s hs
      rcases List.mem_cons.mp hs with hs | hs
      · subst hs
        intro hmem
        rcases List.mem_cons.mp hmem with h1 | h1
        · exact hc h1.symm
        · cases h : splitSegs cs with
          | nil => exact absurd h (splitSegs_ne_nil cs)
          | cons t ts =>
            refine ih t ?_ ?_
            · simp [h]
            · rw [h] at h1
              simpa using h1
      · cases h : splitSegs cs with
        | nil => exact absurd h (splitSegs_ne_nil cs)
        | cons t ts =>
          refine ih s ?_
          rw [h]
          rw [h] at hs
          exact List.mem_cons_of_mem t hs

theorem segsOf_props (cs : List Char) : ∀ s ∈ segsOf cs, s ≠ [] ∧ '/' ∉ s := by
  intro s hs
  have h1 := List.mem_filter.mp hs
  refine ⟨?_, noSlash_splitSegs cs s h1.1⟩
  have := h1.2
  simpa [List.isEmpty_iff] using this

theorem splitSegs_noSlash (s : List Char) (h : '/' ∉ s) : splitSegs s = [s] := by
  induction s with
  | nil => simp [splitSegs]
  | cons c cs ih =>
    have hc : c ≠ '/' := fun hc => h (by simp [hc])
    have hcs : '/' ∉ cs := fun hm => h (List.mem_cons_of_mem c hm)
    rw [splitSegs_cons_ne c cs hc, ih hcs]
    simp

theorem splitSegs_append (s t : List Char) (h : '/' ∉ s) :
    splitSegs (s ++ '/' :: t) = s :: splitSegs t := by
  induction s with
  | nil => simpa using splitSegs_cons_slash t
  | cons c cs ih =>
    have hc : c ≠ '/' := fun hc => h (by simp [hc])
    have hcs : '/' ∉ cs := fun hm => h (List.mem_cons_of_mem c hm)
    rw [List.cons_append, splitSegs_cons_ne c (cs ++ '/' :: t) hc, ih hcs]
    simp

theorem splitSegs_joinSegs (segs : List (List Char)) (h1 : segs ≠ [])
    (h2 : ∀ s ∈ segs, '/' ∉ s) : splitSegs (joinSegs segs) = segs := by
  induction segs with
  | nil => exact absurd rfl h1
  | cons s ss ih =>
    cases ss with
    | nil => simpa [joinSegs] using splitSegs_noSlash s (h2 s (by simp))
    | cons t ts =>
      have hs : '/' ∉ s := h2 s (by simp)
      have hrest : ∀ u ∈ t :: ts, '/' ∉ u := fun u hu => h2 u (List.mem_cons_of_mem s hu)
      rw [show joinSegs (s :: t :: ts) = s ++ '/' :: joinSegs (t :: ts) from rfl,
        splitSegs_append s _ hs, ih (by simp) hrest]

theorem segsOf_joinSegs (segs : List (List Char)) (h1 : segs ≠ [])
    (h2 : ∀ s ∈ segs, s ≠ [] ∧ '/' ∉ s) : segsOf (joinSegs segs) = segs := by
  unfold segsOf
  rw [splitSegs_joinSegs segs h1 (fun s hs => (h2 s hs).2)]
  rw [List.filter_eq_self]
  intro s hs
  simpa [List.isEmpty_iff] using (h2 s hs).1

/-- A plain name segment of a cleaned path: nonempty, separator-free and
neither of the special segments. -/
def goodName (s : List Char) : Prop :=
  s ≠ [] ∧ '/' ∉ s ∧ s ≠ ['.'] ∧ s ≠ dotdot

/-- `procSegs` sends well-formed segments to a normal form: some leading
`".."` segments (none when rooted) followed by plain names. The
accumulator is generalized to `rev ++ replicate k dotdot`, `rev` holding
already-emitted names in reverse. -/
theorem procSegs_normal (rooted : Bool) :
    ∀ (input : List (List Char)), (∀ s ∈ input, s ≠ [] ∧ '/' ∉ s) →
    ∀ (k : Nat) (rev : List (List Char)), (rooted = true → k = 0) →
      (∀ s ∈ rev, goodName s) →
      ∃ k2 names2, (rooted = true → k2 = 0) ∧ (∀ s ∈ names2, goodName s) ∧
        procSegs rooted (rev ++ List.replicate k dotdot) input
          = List.replicate k2 dotdot ++ names2 := by
  intro input
  induction input with
  | nil =>
    intro _ k rev hk hrev
    refine ⟨k, rev.reverse, hk, fun s hs => hrev s (List.mem_reverse.mp hs), ?_⟩
    simp [procSegs, List.reverse_append, List.reverse_replicate]
  | cons s rest ih =>
    intro hin k rev hk hrev
    have hs := hin s (by simp)
    have hrest : ∀ u ∈ rest, u ≠ [] ∧ '/' ∉ u :=
      fun u hu => hin u (List.mem_cons_of_mem s hu)
    by_cases hdot : s = ['.']
    · simpa [procSegs, hdot] using ih hrest k rev hk hrev
    · by_cases hdd : s = dotdot
      · subst hdd
        cases rev with
        | cons r rev' =>
          have hr : goodName r := hrev r (by simp)
          have hrev' : ∀ u ∈ rev', goodName u :=
            fun u hu => hrev u (List.mem_cons_of_mem r hu)
          have hrne : r ≠ dotdot := hr.2.2.2
          simpa [procSegs, hdot, hrne] using ih hrest k rev' hk hrev'
        | nil =>
          cases k with
          | zero =>
            cases hroot : rooted with
            | true =>
              simpa [procSegs, hdot, hroot] using
                ih hrest 0 [] (fun _ => rfl) (by simp)
            | false =>
              have := ih hrest 1 [] (by simp [hroot]) (by simp)
              simpa [procSegs, hdot, hroot, List.replicate_succ] using this
          | succ j =>
            have hroot : rooted = false := by
              cases hroot : rooted with
              | true => exact absurd (hk hroot) (by omega)
              | false => rfl
            have := ih hrest (j + 2) [] (by simp [hroot]) (by simp)
            simpa [procSegs, hdot, List.replicate_succ, dotdot] using this
      · have hgood : goodName s := ⟨hs.1, hs.2, hdot, hdd⟩
        have := ih hrest k (s :: rev)
          hk (fun u hu => by
            rcases List.mem_cons.mp hu with h1 | h1
            · exact h1 ▸ hgood
            · exact hrev u h1)
        simpa [procSegs, hdot, hdd] using this

/-- `procSegs` leaves a list of plain names alone (modulo flushing the
accumulator). -/
theorem procSegs_names (rooted : Bool) (names : List (List Char))
    (h : ∀ s ∈ names, goodName s) :
    ∀ acc, procSegs rooted acc names = acc.reverse ++ names := by
  induction names with
  | nil => intro acc; simp [procSegs]
  | cons s rest ih =>
    intro acc
    have hgood := h s (by simp)
    have hrest : ∀ u ∈ rest, goodName u := fun u hu => h u (List.mem_cons_of_mem s hu)
    rw [show procSegs rooted acc (s :: rest) = procSegs rooted (s :: acc) rest by
      simp [procSegs, hgood.2.2.1, hgood.2.2.2]]
    rw [ih hrest (s :: acc)]
    simp

/-- On a relative path, `procSegs` keeps leading `".."` segments,
stacking them onto the `".."`s already in the accumulator. -/
theorem procSegs_dotdots (names : List (List Char)) (h : ∀ s ∈ names, goodName s) :
    ∀ (k j : Nat),
      procSegs false (List.replicate j dotdot) (List.replicate k dotdot ++ names)
        = List.replicate (j + k) dotdot ++ names := by
  intro k
  induction k with
  | zero =>
    intro j
    simpa [List.reverse_replicate] using procSegs_names false names h (List.replicate j dotdot)
  | succ k ih =>
    intro j
    have hne : dotdot ≠ ['.'] := by decide
    cases j with
    | zero =>
      have step : procSegs false (List.replicate 0 dotdot)
            (List.replicate (k + 1) dotdot ++ names)
          = procSegs false (List.replicate 1 dotdot)
              (List.replicate k dotdot ++ names) := by
        simp [procSegs, hne, List.replicate_succ]
      rw [step, ih 1]
      have harith : 1 + k = 0 + (k + 1) := by omega
      rw [harith]
    | succ j =>
      have step : procSegs false (List.replicate (j + 1) dotdot)
            (List.replicate (k + 1) dotdot ++ names)
          = procSegs false (List.replicate (j + 2) dotdot)
              (List.replicate k dotdot ++ names) := by
        simp [procSegs, hne, List.replicate_succ]
      rw [step, ih (j + 2)]
      have harith : j + 2 + k = j + 1 + (k + 1) := by omega
      rw [harith]

/-- `procSegs` is the identity on segment lists already in normal form. -/
theorem procSegs_id (rooted : Bool) (k : Nat) (names : List (List Char))
    (hk : rooted = true → k = 0) (h : ∀ s ∈ names, goodName s) :
    procSegs rooted [] (List.replicate k dotdot ++ names)
      = List.replicate k dotdot ++ names := by
  cases hroot : rooted with
  | true =>
    rw [hk hroot]
    simpa using procSegs_names true names h []
  | false =>
    simpa using procSegs_dotdots names h k 0

/-- The segments of a normal form are nonempty and separator-free. -/
theorem normal_props (k : Nat) (names : List (List Char))
    (hn : ∀ s ∈ names, goodName s) :
    ∀ s ∈ List.replicate k dotdot ++ names, s ≠ [] ∧ '/' ∉ s := by
  intro s hs
  rcases List.mem_append.mp hs with h | h
  · have := List.eq_of_mem_replicate h
    subst this
    exact ⟨by decide, by decide⟩
  · exact ⟨(hn s h).1, (hn s h).2.1⟩

theorem segsOf_renderPath_rooted (segs : List (List Char))
    (h : ∀ s ∈ segs, s ≠ [] ∧ '/' ∉ s) :
    segsOf (renderPath true segs) = segs := by
  have hr : renderPath true segs = '/' :: joinSegs segs := by simp [renderPath]
  rw [hr]
  unfold segsOf
  rw [splitSegs_cons_slash]
  cases segs with
  | nil => simp [joinSegs, splitSegs]
  | cons s ss =>
    have h2 := segsOf_joinSegs (s :: ss) (by simp) h
    unfold segsOf at h2
    simpa using h2

theorem segsOf_renderPath_ne (segs : List (List Char)) (hne : segs ≠ [])
    (h : ∀ s ∈ segs, s ≠ [] ∧ '/' ∉ s) :
    segsOf (renderPath false segs) = segs := by
  cases segs with
  | nil => exact absurd rfl hne
  | cons s ss =>
    have hr : renderPath false (s :: ss) = joinSegs (s :: ss) := by simp [renderPath]
    rw [hr]
    exact segsOf_joinSegs _ (by simp) h

theorem isRooted_renderPath (rooted : Bool) (segs : List (List Char))
    (h : ∀ s ∈ segs, s ≠ [] ∧ '/' ∉ s) :
    isRooted (renderPath rooted segs) = rooted := by
  cases rooted with
  | true => simp [renderPath, isRooted]
  | false =>
    cases segs with
    | nil =>
      rw [show renderPath false [] = ['.'] from rfl]
      decide
    | cons s ss =>
      have hs := h s (by simp)
      have hr : renderPath false (s :: ss) = joinSegs (s :: ss) := by simp [renderPath]
      rw [hr]
      cases s with
      | nil => exact absurd rfl hs.1
      | cons c s1 =>
        have hc : c ≠ '/' := fun h0 => hs.2 (by simp [h0])
        cases ss with
        | nil => simp [joinSegs, isRooted, hc]
        | cons t ts => simp [joinSegs, isRooted, hc]

theorem renderPath_ne_nil (rooted : Bool) (segs : List (List Char))
    (h : ∀ s ∈ segs, s ≠ []) : renderPath rooted segs ≠ [] := by
  cases rooted with
  | true => simp [renderPath]
  | false =>
    cases segs with
    | nil => simp [renderPath]
    | cons s ss =>
      have hr : renderPath false (s :: ss) = joinSegs (s :: ss) := by simp [renderPath]
      rw [hr]
      cases ss with
      | nil => exact h s (by simp)
      | cons t ts =>
        have hsne := h s (by simp)
        cases s with
        | nil => exact absurd rfl hsne
        | cons c s1 => simp [joinSegs]

/-- The structure of a cleaned path: its segments are in normal form. -/
theorem cleanChars_spec (cs : List Char) :
    ∃ k names, (isRooted cs = true → k = 0) ∧ (∀ s ∈ names, goodName s) ∧
      cleanChars cs = renderPath (isRooted cs) (List.replicate k dotdot ++ names) := by
  obtain ⟨k2, names2, hk2, hn2, heq⟩ :=
    procSegs_normal (isRooted cs) (segsOf cs) (segsOf_props cs) 0 []
      (fun _ => rfl) (by simp)
  refine ⟨k2, names2, hk2, hn2, ?_⟩
  unfold cleanChars
  rw [show (([] : List (List Char)) ++ List.replicate 0 dotdot) = [] from rfl] at heq
  rw [heq]

theorem cleanChars_ne_nil (cs : List Char) : cleanChars cs ≠ [] := by
  obtain ⟨k, names, _, hn, heq⟩ := cleanChars_spec cs
  rw [heq]
  exact renderPath_ne_nil _ _ (fun s hs => (normal_props k names hn s hs).1)

/-- Lexical cleaning is idempotent. -/
theorem cleanChars_idem (cs : List Char) :
    cleanChars (cleanChars cs) = cleanChars cs := by
  obtain ⟨k, names, hk, hn, heq⟩ := cleanChars_spec cs
  have hprops := normal_props k names hn
  have hroot : isRooted (cleanChars cs) = isRooted cs := by
    rw [heq]
    exact isRooted_renderPath _ _ hprops
  by_cases hnil : List.replicate k dotdot ++ names = [] ∧ isRooted cs = false
  · have hdot : cleanChars cs = ['.'] := by
      rw [heq, hnil.1, hnil.2]
      rfl
    rw [hdot]
    decide
  · have hout : segsOf (cleanChars cs) = List.replicate k dotdot ++ names := by
      rw [heq]
      cases hroot2 : isRooted cs with
      | true => exact segsOf_renderPath_rooted _ hprops
      | false =>
        have hne : List.replicate k dotdot ++ names ≠ [] := fun h0 => hnil ⟨h0, hroot2⟩
        exact segsOf_renderPath_ne _ hne hprops
    calc cleanChars (cleanChars cs)
        = renderPath (isRooted (cleanChars cs))
            (procSegs (isRooted (cleanChars cs)) [] (segsOf (cleanChars cs))) := rfl
      _ = renderPath (isRooted cs)
            (procSegs (isRooted cs) [] (List.replicate k dotdot ++ names)) := by
          rw [hroot, hout]
      _ = renderPath (isRooted cs) (List.replicate k dotdot ++ names) := by
          rw [procSegs_id _ k names hk hn]
      _ = cleanChars cs := heq.symm

namespace filepath

/-- `Clean` is idempotent. -/
theorem Clean_idem (s : String) : Clean (Clean s) = Clean s := by
  unfold Clean
  exact congrArg String.mk (cleanChars_idem s.data)

/-- `Clean` never returns the empty string. -/
theorem Clean_ne_empty (s : String) : Clean s ≠ "" := by
  intro h
  exact cleanChars_ne_nil s.data (congrArg String.data h)

end filepath

/-- Anything of the form `String.mk (cleanChars x)` is a fixed point of
`Clean`. -/
theorem clean_mk (x : List Char) :
    filepath.Clean (String.mk (cleanChars x)) = String.mk (cleanChars x) :=
  congrArg String.mk (cleanChars_idem x)

theorem getLast?_mem_self {α : Type} {l : List α} {a : α}
    (h : l.getLast? = some a) : a ∈ l := by
  have h1 : a ∈ l.getLast? := h
  obtain ⟨hne, rfl⟩ := List.mem_getLast?_eq_getLast h1
  exact List.getLast_mem hne

namespace pathlib

/-- The stored string is in cleaned (normalized) form. -/
def Normalized (p : Path) : Prop := filepath.Clean p.path = p.path

theorem normalized_newPath (s : String) : Normalized (NewPath s) := clean_mk s.data

theorem normalized_path_ne_empty {p : Path} (h : Normalized p) : p.path ≠ "" := by
  intro h0
  unfold Normalized at h
  rw [h0] at h
  exact filepath.Clean_ne_empty "" h

theorem normalized_join (p : Path) (other : String) (hp : Normalized p) :
    Normalized (p.Join other) := by
  have hne : p.path ≠ "" := normalized_path_ne_empty hp
  show filepath.Clean (filepath.Join p.path other) = filepath.Join p.path other
  unfold filepath.Join
  simp only [hne, if_false]
  exact clean_mk _

theorem normalized_parent (p : Path) : Normalized p.Parent := by
  show filepath.Clean (filepath.Dir p.path) = filepath.Dir p.path
  unfold filepath.Dir
  exact clean_mk _

theorem parentsLoop_normalized :
    ∀ (n : Nat) (cur : Path) (acc : List Path), (∀ q ∈ acc, Normalized q) →
      ∀ q ∈ parentsLoop n cur acc, Normalized q := by
  intro n
  induction n with
  | zero => intro cur acc hacc q hq; exact hacc q hq
  | succ n ih =>
    intro cur acc hacc q hq
    unfold parentsLoop at hq
    by_cases hb : cur.Parent.path = "." ∨ cur.Parent.path = "/"
    · rw [if_pos hb] at hq
      exact hacc q hq
    · rw [if_neg hb] at hq
      refine ih cur.Parent (acc ++ [cur.Parent]) ?_ q hq
      intro r hr
      rcases List.mem_append.mp hr with h1 | h1
      · exact hacc r h1
      · have : r = cur.Parent := by simpa using h1
        exact this ▸ normalized_parent cur

theorem normalized_parents {p : Path} {d : Nat} {q : Path}
    (h : p.Parents d = some q) : Normalized q :=
  parentsLoop_normalized (d + 1) p [] (by simp) q (getLast?_mem_self h)

theorem normalized_createPath (fs : FS) (pathname : String) :
    Normalized (createPath fs pathname).1 := by
  unfold createPath
  dsimp only
  split
  · split <;> exact normalized_newPath _
  · exact normalized_newPath _

theorem normalized_create (p : Path) (pathname : String) (fs : FS) :
    Normalized (p.Create pathname fs).1 :=
  normalized_createPath fs (p.Join pathname).path

theorem normalized_findOne {p : Path} {t : WTree} {pat : String} {q : Path}
    (h : q ∈ p.FindOne t pat) : Normalized q := by
  unfold Path.FindOne at h
  obtain ⟨s, _, rfl⟩ := List.mem_map.mp h
  exact normalized_newPath s

/-- The `PathValue`s produced by the operations of the library. -/
inductive Produced : Path → Prop
  | newPath (s : String) : Produced (NewPath s)
  | baseDir (cwd : Option String) : Produced (GetBaseDir cwd)
  | join (p : Path) (s : String) : Produced p → Produced (p.Join s)
  | parent (p : Path) : Produced p → Produced p.Parent
  | parents (p : Path) (d : Nat) (q : Path) :
      Produced p → p.Parents d = some q → Produced q
  | create (p : Path) (s : String) (fs : FS) : Produced p → Produced (p.Create s fs).1
  | find (p : Path) (t : WTree) (pat : String) (q : Path) :
      Produced p → q ∈ p.FindOne t pat → Produced q

/-! ## The claims -/

/-- C8: every PathValue produced by any operation of the library
(construction from a string or the working directory, join, parent,
ancestor, create, and the results of find) stores a string that is a
fixed point of lexical normalization: cleaning the stored string again
leaves it unchanged. -/
theorem c8_produced_normalized (p : Path) (h : Produced p) :
    filepath.Clean p.path = p.path := by
  induction h with
  | newPath s => exact normalized_newPath s
  | baseDir cwd =>
    cases cwd with
    | some d => exact normalized_newPath d
    | none => exact normalized_newPath "."
  | join p s _ ih => exact normalized_join p s ih
  | parent p _ _ => exact normalized_parent p
  | parents p d q _ hq _ => exact normalized_parents hq
  | create p s fs _ _ => exact normalized_create p s fs
  | find p t pat q _ hq _ => exact normalized_findOne hq

/-- Witness for C8 at a concrete produced path. -/
theorem c8_witness :
    filepath.Clean (NewPath "x//y/./z/..").path = (NewPath "x//y/./z/..").path :=
  c8_produced_normalized (NewPath "x//y/./z/..") (Produced.newPath "x//y/./z/..")

/-- C9: for every path string `s`, constructing a PathValue from the
string form of `of(s)` yields the same string:
`of(of(s).toString()).toString() == of(s).toString()`. -/
theorem c9_of_toString_idem (s : String) :
    (NewPath (NewPath s).toString).toString = (NewPath s).toString := by
  show filepath.Clean (filepath.Clean s) = filepath.Clean s
  exact filepath.Clean_idem s

/-- C2 (fault witness): on a path whose first `Parent` step already
reaches the `"."` boundary, `Parents` collects nothing and the Go code
evaluates `parents[len(parents)-1]` on an empty slice — an index-range
panic, modelled by `none` — instead of returning the boundary path. -/
theorem c2_parents_boundary_fault :
    (NewPath "a").Parent = NewPath "." ∧ (NewPath "a").Parents 0 = none := by
  decide

/-- C4 (counterexample): `ancestor(0)` does not equal `parent()` for
every PathValue: at `NewPath "a"`, `Parents 0` faults (models the panic)
while `Parent` returns the boundary `"."`. -/
theorem c4_counterexample :
    ¬ ((NewPath "a").Parents 0 = some (NewPath "a").Parent) := by
  decide

/-- C4 (amended): for every PathValue whose parent is neither `"."` nor
the root separator, `ancestor(0)` returns exactly `parent()`. -/
theorem c4_ancestor_zero_eq_parent (p : Path)
    (h1 : p.Parent.path ≠ ".") (h2 : p.Parent.path ≠ "/") :
    p.Parents 0 = some p.Parent := by
  have hloop : parentsLoop 1 p [] = [p.Parent] := by
    unfold parentsLoop
    rw [if_neg (by simp [h1, h2])]
    rfl
  show (parentsLoop (0 + 1) p []).getLast? = some p.Parent
  rw [show (0 + 1) = 1 from rfl, hloop]
  rfl

/-- Witness for C4 (amended) at a concrete path. -/
theorem c4_witness : (NewPath "a/b/c").Parents 0 = some (NewPath "a/b/c").Parent :=
  c4_ancestor_zero_eq_parent (NewPath "a/b/c") (by decide) (by decide)

/-- C1 (fault witness): `create("dir/")` from `"."` on an empty
filesystem does not produce a directory: `Join` cleans away the trailing
separator before `splitPath` runs, so the final filesystem holds exactly
one entry — a regular file named `"dir"` — and the returned PathValue is
`NewPath "dir"`. -/
theorem c1_create_trailing_sep_bug :
    ((NewPath ".").Create "dir/" fsEmpty).1 = NewPath "dir" ∧
    ((NewPath ".").Create "dir/" fsEmpty).2.1.entries = [("dir", FsEntry.file [])] := by
  decide

/-- Formalization of C3 as stated: every IO failure of an underlying
creation step would be surfaced to the caller of `create`. Since the Go
`Create` returns only a `Path` — no error channel — this holds exactly
when no call ever discards an underlying failure, i.e. the discarded
error list is always empty. -/
def C3Statement : Prop :=
  ∀ (p : Path) (pathname : String) (fs : FS), (p.Create pathname fs).2.2 = []

end pathlib

/-- A filesystem where creating the directory `"a"` fails. -/
def fsMkdirFail : FS := ⟨[], [], ["a"], [], [], []⟩

namespace pathlib

/-- C3 (counterexample): with `mkdir` failing at `"a"`, the failure of
`create("a/b")` is discarded rather than surfaced. -/
theorem c3_counterexample : ¬ C3Statement := by
  intro h
  have h1 := h (NewPath ".") "a/b" fsMkdirFail
  revert h1
  decide

/-- The PathValue returned by `createPath`, which depends only on the
pathname string, never on the filesystem outcome. -/
def createResultPath (pathname : String) : Path :=
  let fo := splitPath pathname
  let folder := if fo.2 = "" ∨ (fo.1 = "" ∧ fo.2 = "") then pathname else fo.1
  let p := NewPath folder
  if fo.2 ≠ "" then NewPath (p.Join fo.2).path else p

theorem createPath_fst (fs : FS) (pathname : String) :
    (createPath fs pathname).1 = createResultPath pathname := by
  unfold createPath createResultPath
  dsimp only
  split
  · split <;> rfl
  · rfl

/-- C3 (amended): `Mkdir` surfaces an IO failure to its immediate caller
as an explicit error result, but `Create` discards the errors of its
underlying steps: its returned PathValue is identical for every
filesystem state, failing or not, so no failure reaches the caller of
`create`. -/
theorem c3_create_discards_errors (p : Path) (pathname : String) (fs fs2 : FS) :
    (p.Create pathname fs).1 = (p.Create pathname fs2).1 ∧
    (p.path ∈ fs.mkdirFail → p.Mkdir fs = Except.error "failed to create directory") := by
  constructor
  · show (createPath fs (p.Join pathname).path).1
        = (createPath fs2 (p.Join pathname).path).1
    rw [createPath_fst, createPath_fst]
  · intro h
    unfold Path.Mkdir mkdirAllFs
    rw [if_pos h]

/-- Witness for C3 (amended) at concrete inputs. -/
theorem c3_witness :
    ((NewPath ".").Create "a/b" fsMkdirFail).1 = ((NewPath ".").Create "a/b" fsEmpty).1 ∧
    (NewPath "a").Mkdir fsMkdirFail = Except.error "failed to create directory" :=
  ⟨(c3_create_discards_errors (NewPath ".") "a/b" fsMkdirFail fsEmpty).1,
   (c3_create_discards_errors (NewPath "a") "a/b" fsMkdirFail fsEmpty).2 (by decide)⟩

theorem Path.toString_eq (p : Path) : p.toString = p.path := rfl

/-- Lookup after setting a key finds the new value. -/
theorem mapLookup_mapSet_self (m : List (String × List Path)) (k : String)
    (v : List Path) : mapLookup (mapSet m k v) k = some v := by
  simp [mapLookup, mapSet]

/-- Lookup after setting a different key is unchanged. -/
theorem mapLookup_mapSet_ne (m : List (String × List Path)) (k q : String)
    (v : List Path) (h : q ≠ k) : mapLookup (mapSet m q v) k = mapLookup m k := by
  have hqf : (q == k) = false := beq_eq_false_iff_ne.mpr h
  simp [mapLookup, mapSet, List.find?, hqf]

theorem find_foldl_lookup (p : Path) (t : WTree) (pattern : String) :
    ∀ (patterns : List String) (d : List (String × List Path)),
      (pattern ∈ patterns ∨ mapLookup d pattern = some (p.FindOne t pattern)) →
      mapLookup (patterns.foldl (fun dict q => mapSet dict q (p.FindOne t q)) d) pattern
        = some (p.FindOne t pattern) := by
  intro patterns
  induction patterns with
  | nil =>
    intro d h
    rcases h with h | h
    · simp at h
    · simpa using h
  | cons q rest ih =>
    intro d h
    rw [List.foldl_cons]
    apply ih
    by_cases hq : q = pattern
    · right
      subst hq
      exact mapLookup_mapSet_self d q (p.FindOne t q)
    · rcases h with h | h
      · rcases List.mem_cons.mp h with h1 | h1
        · exact absurd h1.symm hq
        · exact Or.inl h1
      · right
        rw [mapLookup_mapSet_ne d pattern q (p.FindOne t q) hq]
        exact h

/-- C5: `find(patterns)` returns a mapping with an entry for each input
pattern — the (possibly empty) result of `FindOne` — and on an empty
directory tree every requested pattern maps to the empty sequence. -/
theorem c5_find_total_mapping (p : Path) (t : WTree) (patterns : List String)
    (pattern : String) (h : pattern ∈ patterns) :
    mapLookup (p.Find t patterns) pattern = some (p.FindOne t pattern) ∧
    (∀ nm : String, p.FindOne (WTree.dir nm []) pattern = []) := by
  refine ⟨?_, fun nm => rfl⟩
  unfold Path.Find
  exact find_foldl_lookup p t pattern patterns [] (Or.inl h)

/-- Witness for C5 at concrete inputs: the unmatched pattern is present
and maps to the empty list. -/
theorem c5_witness :
    mapLookup ((NewPath "pkg").Find sampleTree ["*.go", "*.py"]) "*.py"
      = some ((NewPath "pkg").FindOne sampleTree "*.py") :=
  (c5_find_total_mapping (NewPath "pkg") sampleTree ["*.go", "*.py"] "*.py"
    (by decide)).1

/-- Evaluation of `Read` over the filesystem model. -/
theorem read_eval (p : Path) (fs : FS) :
    p.Read fs =
      (if p.path ∈ fs.readFail then none
       else
         match entryAt fs p.path with
         | some (FsEntry.file bs) => some bs
         | some FsEntry.dir => none
         | none => none) := by
  unfold Path.Read readFileFs
  by_cases h : p.path ∈ fs.readFail
  · simp [h]
  · simp only [h, if_false]
    cases entryAt fs p.path with
    | none => rfl
    | some e => cases e <;> rfl

/-- C6: `read()` returns the raw byte content on success — a zero-length
result for an existing empty file — and the distinct `nil` sentinel
(`none`), never a zero-length success, exactly when the underlying read
fails for any reason: injected failure (permission), missing entry, or a
directory. -/
theorem c6_read (p : Path) (fs : FS) :
    (p.Read fs = none ↔
      (p.path ∈ fs.readFail ∨ entryAt fs p.path = none ∨
        entryAt fs p.path = some FsEntry.dir)) ∧
    (∀ bs, p.path ∉ fs.readFail → entryAt fs p.path = some (FsEntry.file bs) →
      p.Read fs = some bs) := by
  constructor
  · rw [read_eval]
    by_cases h : p.path ∈ fs.readFail
    · simp [h]
    · simp only [h, if_false]
      cases hent : entryAt fs p.path with
      | none => simp [h]
      | some e => cases e <;> simp [h]
  · intro bs h1 h2
    rw [read_eval, if_neg h1, h2]

/-- A filesystem holding a single empty file `"f"`. -/
def fsC6 : FS := ⟨[("f", FsEntry.file [])], [], [], [], [], []⟩

/-- Witness for C6: reading an existing empty file succeeds with a
zero-length result, not the sentinel. -/
theorem c6_witness : (NewPath "f").Read fsC6 = some [] :=
  (c6_read (NewPath "f") fsC6).2 [] (by decide) (by decide)

/-- Nothing keyed at `key` survives the `RemoveAll` filter. -/
theorem find?_filter_none (key : String) (l : List (String × FsEntry)) :
    (l.filter (fun e => !(e.1 == key || isUnder key e.1))).find?
        (fun e => e.1 == key) = none := by
  rw [List.find?_eq_none]
  intro x hx
  have h2 := (List.mem_filter.mp hx).2
  cases hxk : x.1 == key with
  | false => simp [hxk]
  | true => simp [hxk] at h2

/-- A path with no entry does not stat. -/
theorem exists_false_of_entry_none (p : Path) (fs2 : FS)
    (h : entryAt fs2 p.path = none) : p.Exists fs2 = false := by
  unfold Path.Exists statFs
  by_cases hs : p.path ∈ fs2.statFail
  · simp [hs]
  · simp [hs, h]

/-- `Delete` on a non-existing path does nothing and reports success. -/
theorem delete_not_exists (p : Path) (fs : FS) (h : p.Exists fs = false) :
    p.Delete fs = (true, fs) := by
  unfold Path.Delete
  simp [h]

/-- `Delete` on a failing removal reports failure. -/
theorem delete_exists_fail (p : Path) (fs : FS) (h1 : p.Exists fs = true)
    (h2 : p.path ∈ fs.removeFail) : p.Delete fs = (false, fs) := by
  unfold Path.Delete removeAllFs
  rw [if_pos h1, if_pos h2]

/-- A successful `Delete` reports success. -/
theorem delete_exists_ok_fst (p : Path) (fs : FS) (h1 : p.Exists fs = true)
    (h2 : p.path ∉ fs.removeFail) : (p.Delete fs).1 = true := by
  unfold Path.Delete removeAllFs
  rw [if_pos h1, if_neg h2]

/-- A successful `Delete` removes the entry at the path. -/
theorem delete_exists_ok_entry (p : Path) (fs : FS) (h1 : p.Exists fs = true)
    (h2 : p.path ∉ fs.removeFail) : entryAt (p.Delete fs).2 p.path = none := by
  unfold Path.Delete removeAllFs
  rw [if_pos h1, if_neg h2]
  show (((fs.entries.filter (fun e => !(e.1 == p.path || isUnder p.path e.1))).find?
      (fun e => e.1 == p.path)).map (fun e => e.2)) = none
  rw [find?_filter_none]
  rfl

/-- C7: `delete()` returns `false` exactly when the path exists and the
removal fails; it returns `true` when the path did not exist or the
removal succeeded, and a second `delete()` after a successful one also
returns `true` (idempotence). -/
theorem c7_delete (p : Path) (fs : FS) :
    ((p.Delete fs).1 = false ↔ p.Exists fs = true ∧ p.path ∈ fs.removeFail) ∧
    ((p.Delete fs).1 = true → (p.Delete (p.Delete fs).2).1 = true) := by
  by_cases hex : p.Exists fs = true
  · by_cases hrem : p.path ∈ fs.removeFail
    · have hD := delete_exists_fail p fs hex hrem
      constructor
      · rw [hD]
        simp [hex, hrem]
      · rw [hD]
        simp
    · have hD1 := delete_exists_ok_fst p fs hex hrem
      constructor
      · rw [hD1]
        simp [hrem]
      · intro _
        have hex2 : p.Exists (p.Delete fs).2 = false :=
          exists_false_of_entry_none p _ (delete_exists_ok_entry p fs hex hrem)
        rw [delete_not_exists p _ hex2]
  · have hex2 : p.Exists fs = false := by
      cases hb : p.Exists fs with
      | false => rfl
      | true => exact absurd hb hex
    have hD := delete_not_exists p fs hex2
    constructor
    · rw [hD]
      simp [hex2]
    · intro _
      show (p.Delete (p.Delete fs).2).1 = true
      have h2 : (p.Delete fs).2 = fs := by rw [hD]
      rw [h2, hD]

/-- A filesystem holding a single directory `"a"`. -/
def fsC7 : FS := ⟨[("a", FsEntry.dir)], [], [], [], [], []⟩

/-- Witness for C7: deleting `"a"` succeeds and deleting it again still
returns `true`. -/
theorem c7_witness :
    ((NewPath "a").Delete ((NewPath "a").Delete fsC7).2).1 = true :=
  (c7_delete (NewPath "a") fsC7).2 (by decide)

/-- C10: when `os.Stat` fails (for any reason other than plain
nonexistence included), `exists()` reports `false`, so `delete()` skips
the removal entirely and returns `true` with the filesystem unchanged —
even though the entry may still be present. -/
theorem c10_delete_skips_on_stat_error (p : Path) (fs : FS)
    (h : p.path ∈ fs.statFail) :
    p.Exists fs = false ∧ p.Delete fs = (true, fs) := by
  have hex : p.Exists fs = false := by
    unfold Path.Exists statFs
    rw [if_pos h]
  exact ⟨hex, delete_not_exists p fs hex⟩

/-- A filesystem where `"x"` is present but stat on it fails. -/
def fsC10 : FS := ⟨[("x", FsEntry.file [7])], ["x"], [], [], [], []⟩

/-- Witness for C10: the entry `"x"` exists on disk, yet `exists()` is
`false` and `delete()` returns `true` leaving the filesystem unchanged. -/
theorem c10_witness :
    (NewPath "x").Exists fsC10 = false ∧ (NewPath "x").Delete fsC10 = (true, fsC10) :=
  c10_delete_skips_on_stat_error (NewPath "x") fsC10 (by decide)

end pathlib
example : pathlib.Path.Parents (pathlib.NewPath "a") 0 = none := by decide
example : pathlib.Path.Parents (pathlib.NewPath "a/b/c") 0 = some (pathlib.NewPath "a/b") := by decide
